import Mathlib

/-! Student fee tracker (`src/script.js`): embedding and verified properties.

The script keeps a collection of fee records in one browser-storage slot, adds a payment to it on
every form submission (merging on the roll number), filters it by name and status, and derives a
paid amount, a balance and a payment history for each record.

Modelling conventions.

* A JavaScript scalar is a `JsVal`.  Numbers are the finite ones, taken as exact rationals; `NaN`
  only ever arises from `parseFloat` in this script and is the `none` of `parseFloat`.  The two
  infinities and binary rounding are not represented.
* A record is a `FeeRecord`.  The fields the script tests dynamically (`typeof`, truthiness,
  `Array.isArray`) keep a dynamic shape: `amount`, `totalFee`, `date`, `status`, `id` are `JsVal`s
  and `payments` is `none` when it is not an array.  `name` is a string (the script calls
  `toLowerCase` on it unguarded) and `rollNumber` is an absent or present string.
* The handlers read the whole collection, change it and write it back; they are functions from
  the collection read to the collection written.  `Date.now()` is an argument.
* `JSON.parse` is embedded for the loader (`getFeeRecords`) as a recursive-descent parser of the
  JSON grammar.  Its recursion is bounded by a fuel counter; `jsonParse_fuel` shows that the
  counter never runs out, so every failure of the parser is a `SyntaxError`.
-/

namespace FeeTracker

/-! ## JavaScript values -/

/-- A scalar JavaScript value as it can sit in a field of a stored record. -/
inductive JsVal where
  | undefined
  | null
  | bool (b : Bool)
  | num (q : ℚ)
  | str (s : String)
  deriving DecidableEq, Repr

/-- Truthiness (`ToBoolean`): `undefined`, `null`, `false`, `0` and the empty string are falsy. -/
def JsVal.truthy : JsVal → Bool
  | .undefined => false
  | .null => false
  | .bool b => b
  | .num q => decide (q ≠ 0)
  | .str s => decide (s ≠ "")

/-- The operator `a || b` on values: `a` when it is truthy, else `b`. -/
def JsVal.or (a b : JsVal) : JsVal :=
  if a.truthy then a else b

/-- White space and line terminators, the characters removed by `trim` and skipped by
`parseFloat`. -/
def isJsWhitespace (c : Char) : Bool :=
  let n := c.toNat
  n = 9 || n = 10 || n = 11 || n = 12 || n = 13 || n = 32 || n = 160 || n = 5760 ||
    (8192 ≤ n && n ≤ 8202) || n = 8232 || n = 8233 || n = 8239 || n = 8287 || n = 12288 ||
    n = 65279

/-- `String.prototype.trim`. -/
def jsTrim (s : String) : String :=
  String.mk (((s.data.dropWhile isJsWhitespace).reverse.dropWhile isJsWhitespace).reverse)

/-- The value of a decimal digit character. -/
def digitVal (c : Char) : Option Nat :=
  if 48 ≤ c.toNat ∧ c.toNat ≤ 57 then some (c.toNat - 48) else none

/-- Splits off the longest run of decimal digits at the head of the input. -/
def takeDigits : List Char → List Nat × List Char
  | [] => ([], [])
  | c :: cs =>
    match digitVal c with
    | some d => let r := takeDigits cs; (d :: r.1, r.2)
    | none => ([], c :: cs)

/-- The number written by a list of decimal digits. -/
def digitsToNat (ds : List Nat) : Nat :=
  ds.foldl (fun n d => 10 * n + d) 0

/-- An optional sign at the head of the input: whether it is a minus, and the input after it. -/
def readSign (cs : List Char) : Bool × List Char :=
  match cs with
  | '-' :: r => (true, r)
  | '+' :: r => (false, r)
  | _ => (false, cs)

/-- The exponent part `e[+-]?digits` at the head of the input, 0 when there is none (an `e`
that no digit follows is not part of the literal). -/
def parseExponent : List Char → Int
  | e :: rest =>
    if e = 'e' ∨ e = 'E' then
      let signed := readSign rest
      let ds := (takeDigits signed.2).1
      if signed.1 then - (digitsToNat ds : Int) else (digitsToNat ds : Int)
    else 0
  | [] => 0

/-- The global `parseFloat` on a string: leading white space is skipped and the longest prefix
that is a decimal literal (sign, digits, fraction, exponent) is read; `none` stands for `NaN`.
The literal `Infinity` and literals beyond the double range are outside the model. -/
def parseFloat (s : String) : Option ℚ :=
  let cs := s.data.dropWhile isJsWhitespace
  let signed := readSign cs
  let ip := takeDigits signed.2
  let fp : List Nat × List Char :=
    match ip.2 with
    | '.' :: r => takeDigits r
    | _ => ([], ip.2)
  if ip.1 = [] ∧ fp.1 = [] then none
  else
    let e := parseExponent fp.2
    let m : Int := (digitsToNat (ip.1 ++ fp.1) : Int)
    let up : Nat := e.toNat
    let down : Nat := fp.1.length + (-e).toNat
    some (mkRat ((if signed.1 then -m else m) * (10 : Int) ^ up) (10 ^ down))

/-- The global `parseFloat` on a value: the argument is first converted to a string, so only a
string or a number can give a number. -/
def parseFloatVal : JsVal → Option ℚ
  | .str s => parseFloat s
  | .num q => some q
  | _ => none

/-! ## Records -/

/-- One fee transaction, the object built on line 167 (or found in a stored `payments` array). -/
structure Payment where
  id : JsVal
  amount : JsVal
  date : JsVal
  status : JsVal
  deriving DecidableEq, Repr

/-- One stored record.  `payments = none` stands for a `payments` field that is not an array
(absent in records that predate the list); `rollNumber = none` for an absent roll number. -/
structure FeeRecord where
  id : JsVal
  rollNumber : Option String
  name : String
  payments : Option (List Payment)
  amount : JsVal
  totalFee : JsVal
  date : JsVal
  status : JsVal
  deriving DecidableEq, Repr

/-- The roll number as a value: `undefined` when absent. -/
def FeeRecord.rollVal (r : FeeRecord) : JsVal :=
  match r.rollNumber with
  | some s => .str s
  | none => .undefined

/-- The expression `parseFloat(x) || 0`: `NaN` and 0 both give 0. -/
def orZero : Option ℚ → ℚ
  | some q => if q ≠ 0 then q else 0
  | none => 0

/-- The expression `typeof x === 'number' ? x : parseFloat(x) || 0` (lines 46, 121, 177). -/
def coerceAmount : JsVal → ℚ
  | .num q => q
  | v => orZero (parseFloatVal v)

/-- The reducer `payments.reduce((s, p) => s + coerce(p.amount), 0)` of lines 46 and 177. -/
def sumPayments (ps : List Payment) : ℚ :=
  ps.foldl (fun s p => s + coerceAmount p.amount) 0

/-! ## Aggregation (inside `renderRecords`, lines 43-68) -/

/-- The paid amount of a table row, lines 44-52. -/
def paidAmount (record : FeeRecord) : ℚ :=
  match record.payments with
  | some (p :: ps) => sumPayments (p :: ps)
  | _ =>
    match record.amount with
    | .num q => q
    | a =>
      if a.truthy then
        match parseFloatVal a with
        | some parsed => parsed
        | none => 0
      else 0

/-- The balance of a table row, lines 63-68. -/
def balance (record : FeeRecord) (paid : ℚ) : ℚ :=
  match record.totalFee with
  | .num t => t - paid
  | _ => if record.status = .str "Pending" then paid else 0

/-! ## Filtering (`applyFilters`, lines 87-99) -/

/-- `String.prototype.includes` on character lists: the needle occurs at some position. -/
def includesChars : List Char → List Char → Bool
  | [], needle => needle.isEmpty
  | c :: cs, needle => needle.isPrefixOf (c :: cs) || includesChars cs needle

/-- `String.prototype.includes`. -/
def includes (s search : String) : Bool :=
  includesChars s.data search.data

/-- The records `applyFilters` hands to `renderRecords`.  `toLowerCase` is the platform's case
mapping and `filterName`, `filterStatus` the values of the two filter controls. -/
def applyFilters (toLowerCase : String → String) (allRecords : List FeeRecord)
    (filterName filterStatus : String) : List FeeRecord :=
  let nameFilter := toLowerCase filterName
  allRecords.filter fun record =>
    let matchesName := includes (toLowerCase record.name) nameFilter
    let matchesStatus := decide (filterStatus = "") || decide (record.status = .str filterStatus)
    matchesName && matchesStatus

/-! ## History (`openHistory`, lines 107-136) -/

/-- The payments list of lines 116-122 for the record found; `now` is `Date.now()`. -/
def historyPayments (rec : FeeRecord) (now : Int) : List Payment :=
  match rec.payments with
  | some (p :: ps) => p :: ps
  | _ =>
    [{ id := rec.id.or (.num now)
       amount := .num (coerceAmount rec.amount)
       date := rec.date.or (.str "-")
       status := rec.status.or (.str "-") }]

/-- The rows `openHistory` shows: `none` when no record matches (the modal stays closed). -/
def openHistory (records : List FeeRecord) (rollOrId : JsVal) (now : Int) :
    Option (List Payment) :=
  match records.find? (fun r =>
      (r.rollVal.truthy && decide (r.rollVal = rollOrId)) || decide (r.id = rollOrId)) with
  | none => none
  | some rec => some (historyPayments rec now)

/-! ## Form submission (lines 150-207) -/

/-- The raw values of the six form controls. -/
structure FormInput where
  rollNumber : String
  studentName : String
  feeAmount : String
  totalFee : String
  paymentDate : String
  status : String
  deriving DecidableEq, Repr

/-- `Array.prototype.findIndex`: the lowest index whose element satisfies `p`; `none` is -1. -/
def findIndex {α : Type} (p : α → Bool) : List α → Option Nat
  | [] => none
  | x :: xs => if p x then some 0 else (findIndex p xs).map (· + 1)

/-- The payment built on line 167; `now` is the first `Date.now()`. -/
def mkPayment (f : FormInput) (now : Int) : Payment :=
  { id := .num now
    amount := .num (match parseFloat f.feeAmount with
      | some amountRaw => amountRaw
      | none => 0)
    date := .str f.paymentDate
    status := .str f.status }

/-- The parsed total fee of lines 157-158: `undefined` when the field does not parse. -/
def parsedTotalFee (f : FormInput) : JsVal :=
  match parseFloat f.totalFee with
  | some totalFeeRaw => .num totalFeeRaw
  | none => .undefined

/-- The existing-record branch, lines 170-186, on the record found. -/
def mergePayment (existing : FeeRecord) (f : FormInput) (payment : Payment) : FeeRecord :=
  let payments :=
    (match existing.payments with
      | some ps => ps
      | none => []) ++ [payment]
  { existing with
    payments := some payments
    amount := .num (sumPayments payments)
    totalFee :=
      match parsedTotalFee f with
      | .num t => .num t
      | _ => existing.totalFee
    date := .str f.paymentDate
    status := .str f.status }

/-- The record built on lines 189-198; `now` is the second `Date.now()`. -/
def newRecord (f : FormInput) (payment : Payment) (now : Int) : FeeRecord :=
  { id := .num now
    rollNumber := some (jsTrim f.rollNumber)
    name := jsTrim f.studentName
    payments := some [payment]
    amount := payment.amount
    totalFee :=
      match parsedTotalFee f with
      | .num t => .num t
      | _ => .undefined
    date := .str f.paymentDate
    status := .str f.status }

/-- The test of line 165: the stored roll number is truthy and equals the submitted one. -/
def rollMatches (roll : String) (r : FeeRecord) : Bool :=
  r.rollVal.truthy && decide (r.rollNumber = some roll)

/-- The submit handler as a function from the collection read (line 162) to the collection
saved (line 202).  `now1` and `now2` are the values of the two `Date.now()` calls. -/
def submit (records : List FeeRecord) (f : FormInput) (now1 now2 : Int) : List FeeRecord :=
  let roll := jsTrim f.rollNumber
  let payment := mkPayment f now1
  match findIndex (rollMatches roll) records with
  | some existingIndex =>
    match records[existingIndex]? with
    | some existing => records.set existingIndex (mergePayment existing f payment)
    | none => records
  | none => records ++ [newRecord f payment now2]

/-! ## Loading (`getFeeRecords`, lines 11-14) -/

/-- A value produced by `JSON.parse`.  An object keeps its members in source order. -/
inductive Json where
  | null
  | bool (b : Bool)
  | num (q : ℚ)
  | str (s : String)
  | arr (elems : List Json)
  | obj (members : List (String × Json))
  deriving Repr

/-- An exception.  `syntaxError` is the `SyntaxError` thrown by `JSON.parse`; `outOfFuel` marks
an exhausted recursion budget of the embedding and is never returned by `jsonParse`. -/
inductive JsError where
  | syntaxError
  | outOfFuel
  deriving DecidableEq, Repr

/-- JSON white space: tab, line feed, carriage return, space. -/
def isJsonWs (c : Char) : Bool :=
  c.toNat = 9 || c.toNat = 10 || c.toNat = 13 || c.toNat = 32

/-- Drops leading JSON white space. -/
def skipWs (cs : List Char) : List Char :=
  cs.dropWhile isJsonWs

/-- The value of a hexadecimal digit. -/
def hexVal (c : Char) : Option Nat :=
  let n := c.toNat
  if 48 ≤ n ∧ n ≤ 57 then some (n - 48)
  else if 97 ≤ n ∧ n ≤ 102 then some (n - 87)
  else if 65 ≤ n ∧ n ≤ 70 then some (n - 55)
  else none

/-- Four hexadecimal digits at the head of the input, as a code unit. -/
def parseHex4 : List Char → Option (Nat × List Char)
  | a :: b :: c :: d :: rest =>
    match hexVal a, hexVal b, hexVal c, hexVal d with
    | some x, some y, some z, some w => some (((x * 16 + y) * 16 + z) * 16 + w, rest)
    | _, _, _, _ => none
  | _ => none

/-- The character of a `\u` escape with code unit `u`, and the input after it.  A high surrogate
followed by an escaped low surrogate gives the character of the pair; a lone surrogate is read
as U+FFFD. -/
def unicodeEscape (u : Nat) (rest : List Char) : Char × List Char :=
  if 55296 ≤ u ∧ u ≤ 56319 then
    match rest with
    | '\\' :: 'u' :: r =>
      match parseHex4 r with
      | some (lo, r2) =>
        if 56320 ≤ lo ∧ lo ≤ 57343 then
          (Char.ofNat (65536 + (u - 55296) * 1024 + (lo - 56320)), r2)
        else (Char.ofNat 65533, rest)
      | none => (Char.ofNat 65533, rest)
    | _ => (Char.ofNat 65533, rest)
  else if 56320 ≤ u ∧ u ≤ 57343 then (Char.ofNat 65533, rest)
  else (Char.ofNat u, rest)

/-- The character written by a one-letter escape. -/
def simpleEscape (e : Char) : Option Char :=
  if e = '"' then some '"'
  else if e = '\\' then some '\\'
  else if e = '/' then some '/'
  else if e = 'b' then some (Char.ofNat 8)
  else if e = 'f' then some (Char.ofNat 12)
  else if e = 'n' then some (Char.ofNat 10)
  else if e = 'r' then some (Char.ofNat 13)
  else if e = 't' then some (Char.ofNat 9)
  else none

/-- The escape sequence after a backslash: the character it writes and the input after it;
`none` when it is not a JSON escape. -/
def readEscape : List Char → Option (Char × List Char)
  | [] => none
  | e :: r =>
    if e = 'u' then
      match parseHex4 r with
      | some (u, r2) => some (unicodeEscape u r2)
      | none => none
    else
      match simpleEscape e with
      | some c => some (c, r)
      | none => none

/-- The rest of a JSON string after its opening quote: the decoded characters up to the closing
quote.  `acc` holds the characters read so far, last first. -/
def parseStringBody : Nat → List Char → List Char → Except JsError (String × List Char)
  | 0, _, _ => .error .outOfFuel
  | _ + 1, [], _ => .error .syntaxError
  | fuel + 1, c :: cs, acc =>
    if c = '"' then .ok (String.mk acc.reverse, cs)
    else if c = '\\' then
      match readEscape cs with
      | some (d, r) => parseStringBody fuel r (d :: acc)
      | none => .error .syntaxError
    else if c.toNat < 32 then .error .syntaxError
    else parseStringBody fuel cs (c :: acc)

/-- A JSON string, opening quote already read. -/
def parseString (cs : List Char) : Except JsError (String × List Char) :=
  parseStringBody (cs.length + 1) cs []

/-- The exponent part of a JSON number (a sign and at least one digit after `e`), 0 when there
is no `e`; `none` when the `e` is not followed by digits. -/
def parseJsonExponent : List Char → Option (Int × List Char)
  | e :: rest =>
    if e = 'e' ∨ e = 'E' then
      let signed := readSign rest
      let ds := takeDigits signed.2
      if ds.1 = [] then none
      else some (if signed.1 then - (digitsToNat ds.1 : Int) else (digitsToNat ds.1 : Int), ds.2)
    else some (0, e :: rest)
  | [] => some (0, [])

/-- An optional minus at the head of the input. -/
def readMinus (cs : List Char) : Bool × List Char :=
  match cs with
  | '-' :: r => (true, r)
  | _ => (false, cs)

/-- The fraction of a JSON number: a point followed by at least one digit, or nothing. -/
def parseJsonFraction (cs : List Char) : Option (List Nat × List Char) :=
  match cs with
  | '.' :: r => let ds := takeDigits r; if ds.1 = [] then none else some ds
  | _ => some ([], cs)

/-- A JSON number: optional minus, integer part without a leading zero, optional fraction,
optional exponent. -/
def parseNumber (cs : List Char) : Except JsError (ℚ × List Char) :=
  let signed := readMinus cs
  let ip := takeDigits signed.2
  if ip.1 = [] ∨ (ip.1.head? = some 0 ∧ 1 < ip.1.length) then .error .syntaxError
  else
    match parseJsonFraction ip.2 with
    | none => .error .syntaxError
    | some fp =>
      match parseJsonExponent fp.2 with
      | none => .error .syntaxError
      | some (e, rest) =>
        let m : Int := (digitsToNat (ip.1 ++ fp.1) : Int)
        .ok (mkRat ((if signed.1 then -m else m) * (10 : Int) ^ e.toNat)
          (10 ^ (fp.1.length + (-e).toNat)), rest)

/-- Reads the keyword `kw` at the head of the input. -/
def parseKeyword (kw : List Char) (v : Json) (cs : List Char) :
    Except JsError (Json × List Char) :=
  if kw.isPrefixOf cs then .ok (v, cs.drop kw.length) else .error .syntaxError

mutual

/-- One JSON value, leading white space skipped. -/
def parseValue : Nat → List Char → Except JsError (Json × List Char)
  | 0, _ => .error .outOfFuel
  | fuel + 1, cs =>
    match skipWs cs with
    | [] => .error .syntaxError
    | c :: r =>
      if c = 'n' then parseKeyword "null".data .null (c :: r)
      else if c = 't' then parseKeyword "true".data (.bool true) (c :: r)
      else if c = 'f' then parseKeyword "false".data (.bool false) (c :: r)
      else if c = '"' then
        match parseString r with
        | .ok (s, r2) => .ok (.str s, r2)
        | .error e => .error e
      else if c = '[' then
        match skipWs r with
        | ']' :: r2 => .ok (.arr [], r2)
        | r2 => parseElements fuel r2 []
      else if c = '\x7b' then
        match skipWs r with
        | '\x7d' :: r2 => .ok (.obj [], r2)
        | r2 => parseMembers fuel r2 []
      else
        match parseNumber (c :: r) with
        | .ok (q, r2) => .ok (.num q, r2)
        | .error e => .error e

/-- The elements of a non-empty array after `[`, up to and including `]`. -/
def parseElements : Nat → List Char → List Json → Except JsError (Json × List Char)
  | 0, _, _ => .error .outOfFuel
  | fuel + 1, cs, acc =>
    match parseValue fuel cs with
    | .error e => .error e
    | .ok (v, r) =>
      match skipWs r with
      | ',' :: r2 => parseElements fuel r2 (acc ++ [v])
      | ']' :: r2 => .ok (.arr (acc ++ [v]), r2)
      | _ => .error .syntaxError

/-- The members of a non-empty object after the opening brace, up to and including the closing
brace. -/
def parseMembers : Nat → List Char → List (String × Json) → Except JsError (Json × List Char)
  | 0, _, _ => .error .outOfFuel
  | fuel + 1, cs, acc =>
    match skipWs cs with
    | '"' :: r =>
      match parseString r with
      | .error e => .error e
      | .ok (k, r2) =>
        match skipWs r2 with
        | ':' :: r3 =>
          match parseValue fuel r3 with
          | .error e => .error e
          | .ok (v, r4) =>
            match skipWs r4 with
            | ',' :: r5 => parseMembers fuel r5 (acc ++ [(k, v)])
            | '\x7d' :: r5 => .ok (.obj (acc ++ [(k, v)]), r5)
            | _ => .error .syntaxError
        | _ => .error .syntaxError
    | _ => .error .syntaxError

end

/-- The function `JSON.parse` (without reviver): one value, then only white space. -/
def jsonParse (s : String) : Except JsError Json :=
  match parseValue (2 * s.data.length + 2) s.data with
  | .error e => .error e
  | .ok (v, rest) => if skipWs rest = [] then .ok v else .error .syntaxError

/-- The loader of lines 11-14; `slot` is what `localStorage.getItem('feeRecords')` returns
(`none` for `null`). -/
def getFeeRecords (slot : Option String) : Except JsError Json :=
  match slot with
  | none => .ok (.arr [])
  | some records => if records ≠ "" then jsonParse records else .ok (.arr [])

/-! ## Specification-level notions and sample data -/

/-- The numeric reading of an amount field as the specification words it: a number as is,
anything else by its numeric parse, 0 when the parse fails. -/
def amountReading : JsVal → ℚ
  | .num q => q
  | v => (parseFloatVal v).getD 0

/-- The record of the first scenario: roll R1, total fee 1000, one payment of 400. -/
def scenarioAsha : FeeRecord :=
  { id := .undefined
    rollNumber := some "R1"
    name := "Asha"
    payments := some [⟨.undefined, .num 400, .undefined, .undefined⟩]
    amount := .undefined
    totalFee := .num 1000
    date := .undefined
    status := .undefined }

/-- The record of the second scenario: roll R2, status Pending, flat amount 250, no payments. -/
def scenarioBala : FeeRecord :=
  { id := .undefined
    rollNumber := some "R2"
    name := "Bala"
    payments := none
    amount := .num 250
    totalFee := .undefined
    date := .undefined
    status := .str "Pending" }

/-- The keep condition of the filter as the specification words it. -/
def keeps (toLowerCase : String → String) (namePattern statusPattern : String)
    (r : FeeRecord) : Prop :=
  (namePattern = "" ∨ (toLowerCase namePattern).data <:+: (toLowerCase r.name).data) ∧
    (statusPattern = "" ∨ r.status = .str statusPattern)

instance keepsDecidable (toLowerCase : String → String) (namePattern statusPattern : String)
    (r : FeeRecord) : Decidable (keeps toLowerCase namePattern statusPattern r) := by
  unfold keeps
  infer_instance

/-- A sample case mapping: ASCII letters to lower case. -/
def asciiLower (s : String) : String :=
  String.mk (s.data.map Char.toLower)

/-- The record at index `i` is the one a submission with trimmed roll number `roll` merges into:
`roll` is non-empty, the record carries it, and no record before it does. -/
def MergeTarget (rs : List FeeRecord) (roll : String) (i : Nat) (old : FeeRecord) : Prop :=
  roll ≠ "" ∧ rs[i]? = some old ∧ old.rollNumber = some roll ∧
    ∀ j r, j < i → rs[j]? = some r → r.rollNumber ≠ some roll

/-- A stored collection: the legacy record of the second scenario, then two records that both
carry roll R1. -/
def sampleStore : List FeeRecord :=
  [scenarioBala, scenarioAsha, { scenarioAsha with name := "Asha again" }]

/-- A submission of 300 for roll R1 with the total-fee field left blank. -/
def sampleForm : FormInput :=
  { rollNumber := " R1 "
    studentName := "Asha"
    feeAmount := "300"
    totalFee := ""
    paymentDate := "2024-02-01"
    status := "Paid" }

/-- What the fuel lemmas say of one parser run: a result leaves strictly less input, and with
fuel at least `need` the run does not end for lack of fuel. -/
def RunsWell (run : Except JsError (Json × List Char)) (cs : List Char) (fuel need : Nat) :
    Prop :=
  (∀ v r, run = .ok (v, r) → r.length < cs.length) ∧ (need ≤ fuel → run ≠ .error .outOfFuel)

/-! ## Auxiliary facts -/

theorem orZero_eq_getD (o : Option ℚ) : orZero o = o.getD 0 := by
  cases o with
  | none => rfl
  | some q =>
    by_cases h : q = 0
    · simp [orZero, h]
    · simp [orZero, h]

theorem foldl_add_eq_sum {α : Type} (g : α → ℚ) (l : List α) (a : ℚ) :
    l.foldl (fun s x => s + g x) a = a + (l.map g).sum := by
  induction l generalizing a with
  | nil => simp
  | cons x xs ih => simp [ih, add_assoc]

theorem sumPayments_eq_sum (ps : List Payment) :
    sumPayments ps = (ps.map fun p => coerceAmount p.amount).sum := by
  simp [sumPayments, foldl_add_eq_sum]

theorem sumPayments_append (ps : List Payment) (p : Payment) :
    sumPayments (ps ++ [p]) = sumPayments ps + coerceAmount p.amount := by
  simp [sumPayments, List.foldl_append]

theorem coerceAmount_num (q : ℚ) : coerceAmount (.num q) = q := rfl

theorem parseFloat_empty : parseFloat "" = none := by decide

/-! ## Aggregation: paid amount, balance, history -/

theorem coerceAmount_eq_amountReading (v : JsVal) : coerceAmount v = amountReading v := by
  cases v <;> simp [coerceAmount, amountReading, orZero_eq_getD]

/-- C5. The paid amount of a record with a non-empty payments list is the sum of the numeric
readings of its payments (the flat amount plays no part); with an absent or empty list it is the
numeric reading of the flat amount.  The first scenario gives 400. -/
theorem paidAmount_spec :
    (∀ (r : FeeRecord) (p : Payment) (ps : List Payment), r.payments = some (p :: ps) →
      paidAmount r = ((p :: ps).map fun x => amountReading x.amount).sum ∧
      ∀ a : JsVal, paidAmount { r with amount := a } = paidAmount r) ∧
    (∀ r : FeeRecord, r.payments = none ∨ r.payments = some [] →
      paidAmount r = amountReading r.amount) ∧
    paidAmount scenarioAsha = 400 := by
  refine ⟨?_, ?_, ?_⟩
  · intro r p ps h
    constructor
    · simp only [paidAmount, h, sumPayments_eq_sum, coerceAmount_eq_amountReading]
    · intro a
      simp only [paidAmount, h]
  · intro r h
    have legacy : ∀ a : JsVal,
        (match a with
          | .num q => q
          | a =>
            if a.truthy then
              match parseFloatVal a with
              | some parsed => parsed
              | none => 0
            else 0) = amountReading a := by
      intro a
      cases a with
      | undefined => simp [amountReading, parseFloatVal, JsVal.truthy]
      | null => simp [amountReading, parseFloatVal, JsVal.truthy]
      | bool b => cases b <;> simp [amountReading, parseFloatVal, JsVal.truthy]
      | num q => simp [amountReading]
      | str s =>
        by_cases hs : s = ""
        · subst hs
          simp [amountReading, parseFloatVal, JsVal.truthy, parseFloat_empty]
        · cases hp : parseFloat s <;> simp [amountReading, parseFloatVal, JsVal.truthy, hs, hp]
    rcases h with h | h
    · simp only [paidAmount, h]
      exact legacy r.amount
    · simp only [paidAmount, h]
      exact legacy r.amount
  · decide!

/-- Witness of `paidAmount_spec` on the two scenario records. -/
theorem paidAmount_spec_witness :
    paidAmount scenarioAsha =
      (([⟨.undefined, .num 400, .undefined, .undefined⟩] : List Payment).map
        fun x => amountReading x.amount).sum ∧
    paidAmount scenarioBala = amountReading (.num 250) :=
  ⟨(paidAmount_spec.1 scenarioAsha _ _ rfl).1, paidAmount_spec.2.1 scenarioBala (Or.inl rfl)⟩

/-- C6. The balance is the total fee minus the paid amount when the total fee is a number
(unclamped: negative exactly when more was paid than the total), otherwise the paid amount when
the status is exactly "Pending", otherwise 0.  The two scenarios give 600 and 250. -/
theorem balance_spec :
    (∀ (r : FeeRecord) (paid t : ℚ), r.totalFee = .num t →
      balance r paid = t - paid ∧ (balance r paid < 0 ↔ t < paid)) ∧
    (∀ (r : FeeRecord) (paid : ℚ), (∀ t : ℚ, r.totalFee ≠ .num t) →
      (r.status = .str "Pending" → balance r paid = paid) ∧
      (r.status ≠ .str "Pending" → balance r paid = 0)) ∧
    balance scenarioAsha (paidAmount scenarioAsha) = 600 ∧
    balance scenarioBala (paidAmount scenarioBala) = 250 := by
  refine ⟨?_, ?_, ?_, ?_⟩
  · intro r paid t h
    have hb : balance r paid = t - paid := by simp only [balance, h]
    exact ⟨hb, by rw [hb]; exact sub_neg⟩
  · intro r paid h
    have hb : balance r paid = if r.status = .str "Pending" then paid else 0 := by
      unfold balance
      split
      · next t ht => exact absurd ht (h t)
      · rfl
    constructor
    · intro hs
      rw [hb, if_pos hs]
    · intro hs
      rw [hb, if_neg hs]
  · decide!
  · decide!

/-- Witness of `balance_spec`: an overpaid record (total 1000, paid 1200) has balance -200. -/
theorem balance_spec_witness :
    balance scenarioAsha 1200 = 1000 - 1200 ∧ (balance scenarioAsha 1200 < 0 ↔ (1000 : ℚ) < 1200) ∧
    balance scenarioBala 250 = 250 :=
  ⟨(balance_spec.1 scenarioAsha 1200 1000 rfl).1, (balance_spec.1 scenarioAsha 1200 1000 rfl).2,
    (balance_spec.2.1 scenarioBala 250 (fun _ h => nomatch h)).1 rfl⟩

/-- C7, as stated, fails on the second scenario record (no id, no date): the synthesized entry
carries the clock value as id and the placeholder "-" as date, not the values of the record. -/
theorem historyPayments_not_record_fields :
    historyPayments scenarioBala 1700 = [⟨.num 1700, .num 250, .str "-", .str "Pending"⟩] ∧
    historyPayments scenarioBala 1700 ≠
      [⟨scenarioBala.id, .num 250, scenarioBala.date, scenarioBala.status⟩] := by
  decide!

/-- C7, amended. The history is never empty: it is the payments list itself when that list is
present and non-empty, and otherwise one synthesized entry whose amount is the numeric reading of
the flat amount, whose date and status are those of the record when truthy and "-" otherwise,
and whose id is that of the record when truthy and the clock value otherwise.  Whatever
`openHistory` shows has at least one row. -/
theorem historyPayments_spec (rec : FeeRecord) (now : Int) :
    1 ≤ (historyPayments rec now).length ∧
    (∀ (p : Payment) (ps : List Payment), rec.payments = some (p :: ps) →
      historyPayments rec now = p :: ps) ∧
    (rec.payments = none ∨ rec.payments = some [] →
      historyPayments rec now =
        [⟨if rec.id.truthy then rec.id else .num now, .num (amountReading rec.amount),
          if rec.date.truthy then rec.date else .str "-",
          if rec.status.truthy then rec.status else .str "-"⟩]) ∧
    (∀ (records : List FeeRecord) (rollOrId : JsVal) (rows : List Payment),
      openHistory records rollOrId now = some rows → 1 ≤ rows.length) := by
  have hlen : ∀ r : FeeRecord, 1 ≤ (historyPayments r now).length := by
    intro r
    unfold historyPayments
    split <;> simp
  refine ⟨hlen rec, ?_, ?_, ?_⟩
  · intro p ps h
    simp only [historyPayments, h]
  · intro h
    rcases h with h | h <;>
      simp only [historyPayments, h, JsVal.or, coerceAmount_eq_amountReading]
  · intro records rollOrId rows h
    unfold openHistory at h
    split at h
    · exact absurd h (by simp)
    · next r _ =>
      have hr : historyPayments r now = rows := by simpa using h
      rw [← hr]
      exact hlen r

/-- Witness of `historyPayments_spec` on the second scenario record. -/
theorem historyPayments_spec_witness :
    historyPayments scenarioBala 1700 =
      [⟨if scenarioBala.id.truthy then scenarioBala.id else .num (1700 : Int),
        .num (amountReading scenarioBala.amount),
        if scenarioBala.date.truthy then scenarioBala.date else .str "-",
        if scenarioBala.status.truthy then scenarioBala.status else .str "-"⟩] ∧
    1 ≤ (historyPayments scenarioAsha 1700).length :=
  ⟨(historyPayments_spec scenarioBala 1700).2.2.1 (Or.inl rfl),
    (historyPayments_spec scenarioAsha 1700).1⟩

/-! ## Filtering -/

theorem includesChars_iff (hay needle : List Char) :
    includesChars hay needle = true ↔ needle <:+: hay := by
  induction hay with
  | nil => simp [includesChars, List.isEmpty_iff]
  | cons c cs ih =>
    rw [includesChars, Bool.or_eq_true, ih, List.infix_cons_iff, List.isPrefixOf_iff_prefix]

theorem applyFilters_eq_filter (toLowerCase : String → String) (h : toLowerCase "" = "")
    (rs : List FeeRecord) (np sp : String) :
    applyFilters toLowerCase rs np sp = rs.filter fun r => decide (keeps toLowerCase np sp r) := by
  unfold applyFilters
  apply List.filter_congr
  intro r _
  rw [Bool.eq_iff_iff]
  simp only [Bool.and_eq_true, Bool.or_eq_true, decide_eq_true_eq, keeps, includes,
    includesChars_iff]
  constructor
  · rintro ⟨h1, h2⟩
    exact ⟨Or.inr h1, h2⟩
  · rintro ⟨h1 | h1, h2⟩
    · subst h1
      rw [h]
      exact ⟨List.nil_infix, h2⟩
    · exact ⟨h1, h2⟩

/-- C8. The filtered result is the input filtered, in order, by the keep condition (name pattern
empty or contained in the name after case folding, and status pattern empty or equal to the
status); it is a subsequence of the input, equals the input when both patterns are empty, and
filtering it again changes nothing.  The case mapping is any function fixing the empty string. -/
theorem applyFilters_spec (toLowerCase : String → String) (h : toLowerCase "" = "")
    (rs : List FeeRecord) (np sp : String) :
    applyFilters toLowerCase rs np sp = rs.filter (fun r => decide (keeps toLowerCase np sp r)) ∧
    (applyFilters toLowerCase rs np sp).Sublist rs ∧
    applyFilters toLowerCase rs "" "" = rs ∧
    applyFilters toLowerCase (applyFilters toLowerCase rs np sp) np sp =
      applyFilters toLowerCase rs np sp := by
  refine ⟨applyFilters_eq_filter toLowerCase h rs np sp, ?_, ?_, ?_⟩
  · rw [applyFilters_eq_filter toLowerCase h]
    exact List.filter_sublist rs
  · rw [applyFilters_eq_filter toLowerCase h]
    simp [keeps]
  · simp only [applyFilters_eq_filter toLowerCase h, List.filter_filter, Bool.and_self]

/-- Witness of `applyFilters_spec`: pattern "AS" with status "Pending" on the two scenario
records keeps the first, whose status is set to "Pending" for the occasion. -/
theorem applyFilters_spec_witness :
    asciiLower "" = "" ∧
    applyFilters asciiLower [{ scenarioAsha with status := .str "Pending" }, scenarioBala]
        "AS" "Pending" =
      [{ scenarioAsha with status := .str "Pending" }] ∧
    applyFilters asciiLower [{ scenarioAsha with status := .str "Pending" }, scenarioBala]
        "AS" "Pending" =
      [{ scenarioAsha with status := .str "Pending" }, scenarioBala].filter
        (fun r => decide (keeps asciiLower "AS" "Pending" r)) ∧
    applyFilters asciiLower [{ scenarioAsha with status := .str "Pending" }, scenarioBala] "" "" =
      [{ scenarioAsha with status := .str "Pending" }, scenarioBala] :=
  ⟨by decide, by decide!,
    (applyFilters_spec asciiLower (by decide)
      [{ scenarioAsha with status := .str "Pending" }, scenarioBala] "AS" "Pending").1,
    (applyFilters_spec asciiLower (by decide)
      [{ scenarioAsha with status := .str "Pending" }, scenarioBala] "AS" "Pending").2.2.1⟩

/-! ## Form submission -/

theorem findIndex_eq_none {α : Type} (p : α → Bool) (l : List α) :
    findIndex p l = none ↔ ∀ x ∈ l, p x = false := by
  induction l with
  | nil => simp [findIndex]
  | cons x xs ih =>
    by_cases hx : p x = true
    · simp [findIndex, hx]
    · simp [findIndex, hx, ih]

theorem findIndex_eq_some {α : Type} (p : α → Bool) (l : List α) (i : Nat) :
    findIndex p l = some i ↔
      ∃ x, l[i]? = some x ∧ p x = true ∧ ∀ j y, j < i → l[j]? = some y → p y = false := by
  induction l generalizing i with
  | nil => simp [findIndex]
  | cons a as ih =>
    by_cases ha : p a = true
    · simp only [findIndex, ha, if_true, Option.some.injEq]
      constructor
      · intro h
        subst h
        exact ⟨a, by simp, ha, fun j y hj => absurd hj (Nat.not_lt_zero j)⟩
      · rintro ⟨x, _, _, hfirst⟩
        cases i with
        | zero => rfl
        | succ k =>
          have := hfirst 0 a (Nat.succ_pos k) (by simp)
          rw [ha] at this
          exact absurd this (by simp)
    · have ha' : p a = false := by simpa using ha
      simp only [findIndex, ha', Bool.false_eq_true, if_false, Option.map_eq_some']
      constructor
      · rintro ⟨k, hk, rfl⟩
        obtain ⟨x, hx, hpx, hfirst⟩ := (ih k).1 hk
        refine ⟨x, by simpa using hx, hpx, ?_⟩
        intro j y hj hy
        cases j with
        | zero =>
          have : a = y := by simpa using hy
          rw [← this]
          exact ha'
        | succ m => exact hfirst m y (by omega) (by simpa using hy)
      · rintro ⟨x, hx, hpx, hfirst⟩
        cases i with
        | zero =>
          have : a = x := by simpa using hx
          rw [this] at ha'
          rw [ha'] at hpx
          exact absurd hpx (by simp)
        | succ k =>
          refine ⟨k, (ih k).2 ⟨x, by simpa using hx, hpx, ?_⟩, rfl⟩
          intro j y hj hy
          exact hfirst (j + 1) y (by omega) (by simpa using hy)

theorem rollMatches_iff (roll : String) (r : FeeRecord) :
    rollMatches roll r = true ↔ roll ≠ "" ∧ r.rollNumber = some roll := by
  unfold rollMatches FeeRecord.rollVal
  cases h : r.rollNumber with
  | none => simp [JsVal.truthy]
  | some s =>
    simp only [JsVal.truthy, Bool.and_eq_true, decide_eq_true_eq, Option.some.injEq]
    constructor
    · rintro ⟨h1, h2⟩
      exact ⟨h2 ▸ h1, h2⟩
    · rintro ⟨h1, h2⟩
      exact ⟨h2 ▸ h1, h2⟩

theorem rollMatches_eq_false_iff (roll : String) (r : FeeRecord) :
    rollMatches roll r = false ↔ (roll = "" ∨ r.rollNumber ≠ some roll) := by
  rw [← Bool.not_eq_true, rollMatches_iff]
  by_cases h : roll = "" <;> simp [h]

theorem findIndex_of_mergeTarget {rs : List FeeRecord} {roll : String} {i : Nat}
    {old : FeeRecord} (h : MergeTarget rs roll i old) :
    findIndex (rollMatches roll) rs = some i := by
  obtain ⟨hne, hi, hroll, hfirst⟩ := h
  rw [findIndex_eq_some]
  refine ⟨old, hi, (rollMatches_iff roll old).2 ⟨hne, hroll⟩, ?_⟩
  intro j y hj hy
  exact (rollMatches_eq_false_iff roll y).2 (Or.inr (hfirst j y hj hy))

theorem mergeTarget_of_findIndex {rs : List FeeRecord} {roll : String} {i : Nat}
    (h : findIndex (rollMatches roll) rs = some i) : ∃ old, MergeTarget rs roll i old := by
  obtain ⟨x, hx, hpx, hfirst⟩ := (findIndex_eq_some _ rs i).1 h
  obtain ⟨hne, hroll⟩ := (rollMatches_iff roll x).1 hpx
  refine ⟨x, hne, hx, hroll, ?_⟩
  intro j r hj hr
  rcases (rollMatches_eq_false_iff roll r).1 (hfirst j r hj hr) with h1 | h1
  · exact absurd h1 hne
  · exact h1

theorem submit_of_mergeTarget {rs : List FeeRecord} {f : FormInput} {i : Nat} {old : FeeRecord}
    (h : MergeTarget rs (jsTrim f.rollNumber) i old) (now1 now2 : Int) :
    submit rs f now1 now2 = rs.set i (mergePayment old f (mkPayment f now1)) := by
  simp only [submit, findIndex_of_mergeTarget h, h.2.1]

theorem submit_of_no_match {rs : List FeeRecord} {f : FormInput}
    (h : findIndex (rollMatches (jsTrim f.rollNumber)) rs = none) (now1 now2 : Int) :
    submit rs f now1 now2 = rs ++ [newRecord f (mkPayment f now1) now2] := by
  simp only [submit, h]

theorem mkPayment_eq (f : FormInput) (now : Int) :
    mkPayment f now =
      ⟨.num now, .num ((parseFloat f.feeAmount).getD 0), .str f.paymentDate, .str f.status⟩ := by
  unfold mkPayment
  cases parseFloat f.feeAmount <;> rfl

/-- C3. A submission whose trimmed roll number is empty or carried by no stored record leaves
the old collection in place and appends exactly one record, whose payments list holds just the
submitted payment; and whatever is submitted, a stored record with an absent or empty roll
number is left as it was. -/
theorem submit_create (rs : List FeeRecord) (f : FormInput) (now1 now2 : Int) :
    ((jsTrim f.rollNumber = "" ∨ ∀ r ∈ rs, r.rollNumber ≠ some (jsTrim f.rollNumber)) →
      ∃ created : FeeRecord,
        submit rs f now1 now2 = rs ++ [created] ∧
        (submit rs f now1 now2).length = rs.length + 1 ∧
        created.payments = some [⟨.num now1, .num ((parseFloat f.feeAmount).getD 0),
          .str f.paymentDate, .str f.status⟩] ∧
        created.rollNumber = some (jsTrim f.rollNumber) ∧
        created.name = jsTrim f.studentName) ∧
    (∀ (i : Nat) (r : FeeRecord), rs[i]? = some r →
      (r.rollNumber = none ∨ r.rollNumber = some "") →
      (submit rs f now1 now2)[i]? = some r) := by
  constructor
  · intro h
    have hfi : findIndex (rollMatches (jsTrim f.rollNumber)) rs = none := by
      rw [findIndex_eq_none]
      intro r hr
      rw [rollMatches_eq_false_iff]
      rcases h with h | h
      · exact Or.inl h
      · exact Or.inr (h r hr)
    refine ⟨newRecord f (mkPayment f now1) now2, submit_of_no_match hfi now1 now2, ?_, ?_,
      rfl, rfl⟩
    · rw [submit_of_no_match hfi]
      simp
    · rw [mkPayment_eq]
      rfl
  · intro i r hi hr
    cases hfi : findIndex (rollMatches (jsTrim f.rollNumber)) rs with
    | none =>
      rw [submit_of_no_match hfi]
      have hlt : i < rs.length := by
        rw [List.getElem?_eq_some] at hi
        exact hi.1
      rw [List.getElem?_append_left hlt]
      exact hi
    | some k =>
      obtain ⟨old, hk⟩ := mergeTarget_of_findIndex hfi
      rw [submit_of_mergeTarget hk]
      have hne : k ≠ i := by
        intro hki
        subst hki
        have : old = r := by
          have := hk.2.1
          rw [hi] at this
          exact (Option.some.inj this).symm
        subst this
        rcases hr with hr | hr
        · rw [hk.2.2.1] at hr
          exact absurd hr (by simp)
        · rw [hk.2.2.1] at hr
          exact hk.1 (Option.some.inj hr)
      rw [List.getElem?_set_ne hne]
      exact hi

/-- Witness of `submit_create`: an unknown roll number appends, and so does an empty one even
next to a stored record whose roll number is empty. -/
theorem submit_create_witness :
    (∃ created : FeeRecord,
      submit sampleStore { sampleForm with rollNumber := "R9" } 5 6 = sampleStore ++ [created]) ∧
    (submit [{ scenarioBala with rollNumber := some "" }] { sampleForm with rollNumber := "  " }
      5 6)[0]? = some { scenarioBala with rollNumber := some "" } :=
  ⟨by
    obtain ⟨c, hc, _⟩ := (submit_create sampleStore { sampleForm with rollNumber := "R9" } 5 6).1
      (Or.inr (by decide!))
    exact ⟨c, hc⟩,
   (submit_create [{ scenarioBala with rollNumber := some "" }]
      { sampleForm with rollNumber := "  " } 5 6).2 0 _ rfl (Or.inr rfl)⟩

/-- C10 fails on a legacy record. The second scenario record (flat amount 250, no payments list)
shows a paid amount of 250; after a submission of 300 for its roll number the merged record
shows 300, not 550: the flat amount is dropped when the payments list is initialised. -/
theorem submit_drops_legacy_amount :
    paidAmount scenarioBala = 250 ∧
    (submit [scenarioBala] { sampleForm with rollNumber := "R2" } 5 6).map paidAmount = [300] ∧
    (submit [scenarioBala] { sampleForm with rollNumber := "R2" } 5 6).map paidAmount ≠
      [paidAmount scenarioBala + 300] := by
  decide!

/-- The part of C10 that holds: merging into a record whose payments list is non-empty raises
its paid amount by the submitted amount. -/
theorem submit_paidAmount_of_payments (rs : List FeeRecord) (f : FormInput) (now1 now2 : Int)
    (i : Nat) (old : FeeRecord) (h : MergeTarget rs (jsTrim f.rollNumber) i old)
    (p : Payment) (ps : List Payment) (hp : old.payments = some (p :: ps)) :
    ∃ new : FeeRecord, (submit rs f now1 now2)[i]? = some new ∧
      paidAmount new = paidAmount old + (parseFloat f.feeAmount).getD 0 := by
  have hlt : i < rs.length := by
    have := h.2.1
    rw [List.getElem?_eq_some] at this
    exact this.1
  refine ⟨mergePayment old f (mkPayment f now1), ?_, ?_⟩
  · rw [submit_of_mergeTarget h, List.getElem?_set_self hlt]
  · have h1 : (mergePayment old f (mkPayment f now1)).payments =
        some (p :: (ps ++ [mkPayment f now1])) := by
      simp [mergePayment, hp]
    have h2 : paidAmount (mergePayment old f (mkPayment f now1)) =
        sumPayments ((p :: ps) ++ [mkPayment f now1]) := by
      simp only [paidAmount, h1, List.cons_append]
    have h3 : paidAmount old = sumPayments (p :: ps) := by
      simp only [paidAmount, hp]
    rw [h2, h3, sumPayments_append, mkPayment_eq, coerceAmount_num]

/-! ## The amount invariant -/

theorem takeDigits_length (cs : List Char) :
    (takeDigits cs).1.length + (takeDigits cs).2.length = cs.length := by
  induction cs with
  | nil => rfl
  | cons c cs ih =>
    unfold takeDigits
    split
    · simp only [List.length_cons]
      omega
    · simp

theorem skipWs_length_le (cs : List Char) : (skipWs cs).length ≤ cs.length :=
  (List.dropWhile_sublist isJsonWs).length_le

theorem parseHex4_length {cs r : List Char} {u : Nat} (h : parseHex4 cs = some (u, r)) :
    r.length + 4 = cs.length := by
  unfold parseHex4 at h
  split at h
  · split at h
    · simp only [Option.some.injEq, Prod.mk.injEq] at h
      rw [← h.2]
      simp
    · exact absurd h (by simp)
  · exact absurd h (by simp)

theorem unicodeEscape_length (u : Nat) (rest : List Char) :
    (unicodeEscape u rest).2.length ≤ rest.length := by
  unfold unicodeEscape
  split
  · split
    · next r =>
      split
      · next lo r2 hhex =>
        have := parseHex4_length hhex
        split
        · simp only [List.length_cons]
          omega
        · exact Nat.le_refl _
      · exact Nat.le_refl _
    · exact Nat.le_refl _
  · split <;> exact Nat.le_refl _

theorem readEscape_length {cs r : List Char} {d : Char} (h : readEscape cs = some (d, r)) :
    r.length < cs.length := by
  unfold readEscape at h
  split at h
  · exact absurd h (by simp)
  · next e r0 =>
    split at h
    · split at h
      · next u r2 hhex =>
        have h1 := parseHex4_length hhex
        have h2 := unicodeEscape_length u r2
        have h3 : (unicodeEscape u r2).2 = r := by
          have := Option.some.inj h
          rw [this]
        rw [h3] at h2
        simp only [List.length_cons]
        omega
      · exact absurd h (by simp)
    · split at h
      · have h3 : r0 = r := by
          have := Option.some.inj h
          exact (Prod.mk.inj this).2
        rw [h3]
        simp
      · exact absurd h (by simp)

theorem parseStringBody_spec (fuel : Nat) :
    ∀ (cs acc : List Char),
      (∀ s r, parseStringBody fuel cs acc = .ok (s, r) → r.length < cs.length) ∧
      (cs.length < fuel → parseStringBody fuel cs acc ≠ .error .outOfFuel) := by
  induction fuel with
  | zero =>
    intro cs acc
    exact ⟨fun s r h => by simp [parseStringBody] at h, fun h => absurd h (Nat.not_lt_zero _)⟩
  | succ fuel ih =>
    intro cs acc
    cases cs with
    | nil => exact ⟨fun s r h => by simp [parseStringBody] at h, fun _ => by simp [parseStringBody]⟩
    | cons c cs =>
      unfold parseStringBody
      by_cases h1 : c = '"'
      · rw [if_pos h1]
        constructor
        · intro s r h
          have h2 : cs = r := (Prod.mk.inj (Except.ok.inj h)).2
          rw [← h2]
          simp
        · intro _ h
          exact absurd h (by simp)
      · rw [if_neg h1]
        by_cases h2 : c = '\\'
        · rw [if_pos h2]
          cases hesc : readEscape cs with
          | none =>
            exact ⟨fun s r h => absurd h (by simp), fun _ h => absurd h (by simp)⟩
          | some dr =>
            obtain ⟨d, r0⟩ := dr
            have hlen := readEscape_length hesc
            constructor
            · intro s r h
              have := (ih r0 (d :: acc)).1 s r h
              simp only [List.length_cons]
              omega
            · intro hf
              exact (ih r0 (d :: acc)).2 (by simp only [List.length_cons] at hf; omega)
        · rw [if_neg h2]
          by_cases h3 : c.toNat < 32
          · rw [if_pos h3]
            exact ⟨fun s r h => absurd h (by simp), fun _ h => absurd h (by simp)⟩
          · rw [if_neg h3]
            constructor
            · intro s r h
              have := (ih cs (c :: acc)).1 s r h
              simp only [List.length_cons]
              omega
            · intro hf
              exact (ih cs (c :: acc)).2 (by simp only [List.length_cons] at hf; omega)

theorem parseString_length {cs r : List Char} {s : String}
    (h : parseString cs = .ok (s, r)) : r.length < cs.length :=
  (parseStringBody_spec _ cs []).1 s r h

theorem parseString_fuel (cs : List Char) : parseString cs ≠ .error .outOfFuel :=
  (parseStringBody_spec _ cs []).2 (Nat.lt_succ_self _)

theorem readSign_length (cs : List Char) : (readSign cs).2.length ≤ cs.length := by
  unfold readSign
  split <;> simp

theorem readMinus_length (cs : List Char) : (readMinus cs).2.length ≤ cs.length := by
  unfold readMinus
  split <;> simp

theorem parseJsonExponent_length {cs r : List Char} {e : Int}
    (h : parseJsonExponent cs = some (e, r)) : r.length ≤ cs.length := by
  unfold parseJsonExponent at h
  split at h
  · next c rest =>
    split at h
    · simp only at h
      split at h
      · exact absurd h (by simp)
      · have h2 := (Prod.mk.inj (Option.some.inj h)).2
        rw [← h2]
        have h3 := takeDigits_length (readSign rest).2
        have h4 := readSign_length rest
        simp only [List.length_cons]
        omega
    · have h2 := (Prod.mk.inj (Option.some.inj h)).2
      rw [← h2]
  · have h2 := (Prod.mk.inj (Option.some.inj h)).2
    rw [← h2]

theorem parseJsonFraction_length {cs r : List Char} {ds : List Nat}
    (h : parseJsonFraction cs = some (ds, r)) : r.length ≤ cs.length := by
  unfold parseJsonFraction at h
  split at h
  · next r0 =>
    simp only at h
    split at h
    · exact absurd h (by simp)
    · have h2 : (takeDigits r0).2 = r := by
        have := Option.some.inj h
        rw [this]
      have h3 := takeDigits_length r0
      rw [← h2]
      simp only [List.length_cons]
      omega
  · have h2 := (Prod.mk.inj (Option.some.inj h)).2
    rw [← h2]

theorem parseNumber_fuel (cs : List Char) : parseNumber cs ≠ .error .outOfFuel := by
  unfold parseNumber
  simp only
  split
  · simp
  · split
    · simp
    · split
      · simp
      · simp

theorem parseNumber_length {cs r : List Char} {q : ℚ} (h : parseNumber cs = .ok (q, r)) :
    r.length < cs.length := by
  unfold parseNumber at h
  simp only at h
  split at h
  · exact absurd h (by simp)
  · next hip =>
    split at h
    · exact absurd h (by simp)
    · next fp hfp =>
      split at h
      · exact absurd h (by simp)
      · next e rest hexp =>
        have h1 : rest = r := (Prod.mk.inj (Except.ok.inj h)).2
        have h2 := parseJsonExponent_length hexp
        have h3 := parseJsonFraction_length hfp
        have h4 := takeDigits_length (readMinus cs).2
        have h5 := readMinus_length cs
        have h6 : 0 < (takeDigits (readMinus cs).2).1.length := by
          apply List.length_pos.2
          intro hnil
          exact hip (Or.inl hnil)
        rw [← h1]
        omega

theorem parseKeyword_fuel (kw : List Char) (v : Json) (cs : List Char) :
    parseKeyword kw v cs ≠ .error .outOfFuel := by
  unfold parseKeyword
  split <;> simp

theorem parseKeyword_length {kw cs r : List Char} {v w : Json} (hkw : kw ≠ [])
    (h : parseKeyword kw v cs = .ok (w, r)) : r.length < cs.length := by
  unfold parseKeyword at h
  split at h
  · next hpre =>
    have h1 : cs.drop kw.length = r := (Prod.mk.inj (Except.ok.inj h)).2
    have h2 : kw.length ≤ cs.length := (List.isPrefixOf_iff_prefix.1 hpre).length_le
    have h3 : 0 < kw.length := List.length_pos.2 hkw
    rw [← h1, List.length_drop]
    omega
  · exact absurd h (by simp)

theorem runsWell_error_syntax (cs : List Char) (fuel need : Nat) :
    RunsWell (.error .syntaxError) cs fuel need :=
  ⟨fun _ _ h => absurd h (by simp), fun _ h => absurd h (by simp)⟩

theorem runsWell_keyword {kw : List Char} (hkw : kw ≠ []) (v : Json) {cs cs0 : List Char}
    (hle : cs0.length ≤ cs.length) (fuel need : Nat) :
    RunsWell (parseKeyword kw v cs0) cs fuel need :=
  ⟨fun _ _ h => Nat.lt_of_lt_of_le (parseKeyword_length hkw h) hle,
    fun _ => parseKeyword_fuel kw v cs0⟩

theorem runsWell_string {cs r : List Char} (hle : r.length < cs.length) (fuel need : Nat) :
    RunsWell
      (match parseString r with
        | .ok (s, r2) => .ok (.str s, r2)
        | .error e => .error e) cs fuel need := by
  cases hs : parseString r with
  | error e =>
    refine ⟨fun _ _ h => absurd h (by simp), fun _ h => ?_⟩
    have h1 : e = .outOfFuel := by simpa using h
    rw [h1] at hs
    exact parseString_fuel r hs
  | ok p =>
    obtain ⟨s, r2⟩ := p
    refine ⟨fun v r3 h => ?_, fun _ h => absurd h (by simp)⟩
    have h1 : r2 = r3 := (Prod.mk.inj (Except.ok.inj h)).2
    rw [← h1]
    have h2 := parseString_length hs
    omega

theorem runsWell_number {cs cs0 : List Char} (hle : cs0.length ≤ cs.length) (fuel need : Nat) :
    RunsWell
      (match parseNumber cs0 with
        | .ok (q, r2) => .ok (.num q, r2)
        | .error e => .error e) cs fuel need := by
  cases hs : parseNumber cs0 with
  | error e =>
    refine ⟨fun _ _ h => absurd h (by simp), fun _ h => ?_⟩
    have h1 : e = .outOfFuel := by simpa using h
    rw [h1] at hs
    exact parseNumber_fuel cs0 hs
  | ok p =>
    obtain ⟨q, r2⟩ := p
    refine ⟨fun v r3 h => ?_, fun _ h => absurd h (by simp)⟩
    have h1 : r2 = r3 := (Prod.mk.inj (Except.ok.inj h)).2
    rw [← h1]
    have h2 := parseNumber_length hs
    omega

theorem parse_runsWell (fuel : Nat) :
    (∀ cs, RunsWell (parseValue fuel cs) cs fuel (2 * cs.length + 1)) ∧
    (∀ cs acc, RunsWell (parseElements fuel cs acc) cs fuel (2 * cs.length + 2)) ∧
    (∀ cs acc, RunsWell (parseMembers fuel cs acc) cs fuel (2 * cs.length + 2)) := by
  induction fuel with
  | zero =>
    refine ⟨fun cs => ?_, fun cs acc => ?_, fun cs acc => ?_⟩
    · exact ⟨fun _ _ h => by simp [parseValue] at h, fun h => by omega⟩
    · exact ⟨fun _ _ h => by simp [parseElements] at h, fun h => by omega⟩
    · exact ⟨fun _ _ h => by simp [parseMembers] at h, fun h => by omega⟩
  | succ fuel ih =>
    obtain ⟨ihV, ihE, ihM⟩ := ih
    refine ⟨fun cs => ?_, fun cs acc => ?_, fun cs acc => ?_⟩
    · unfold parseValue
      have hws := skipWs_length_le cs
      split
      · exact runsWell_error_syntax _ _ _
      · next c r hcr =>
        rw [hcr] at hws
        simp only [List.length_cons] at hws
        have hle : (c :: r).length ≤ cs.length := by simpa using hws
        by_cases h1 : c = 'n'
        · rw [if_pos h1]
          exact runsWell_keyword (by decide) _ hle _ _
        rw [if_neg h1]
        by_cases h2 : c = 't'
        · rw [if_pos h2]
          exact runsWell_keyword (by decide) _ hle _ _
        rw [if_neg h2]
        by_cases h3 : c = 'f'
        · rw [if_pos h3]
          exact runsWell_keyword (by decide) _ hle _ _
        rw [if_neg h3]
        by_cases h4 : c = '"'
        · rw [if_pos h4]
          exact runsWell_string (by omega) _ _
        rw [if_neg h4]
        by_cases h5 : c = '['
        · rw [if_pos h5]
          have hr := skipWs_length_le r
          split
          · next r2 hr2 =>
            rw [hr2] at hr
            simp only [List.length_cons] at hr
            refine ⟨fun v r3 h => ?_, fun _ h => absurd h (by simp)⟩
            have h6 : r2 = r3 := (Prod.mk.inj (Except.ok.inj h)).2
            rw [← h6]
            omega
          · next r2 _ =>
            obtain ⟨hlen, hfuel⟩ := ihE (skipWs r) []
            refine ⟨fun v r3 h => ?_, fun hf => hfuel (by omega)⟩
            have := hlen v r3 h
            omega
        rw [if_neg h5]
        by_cases h6 : c = '\x7b'
        · rw [if_pos h6]
          have hr := skipWs_length_le r
          split
          · next r2 hr2 =>
            rw [hr2] at hr
            simp only [List.length_cons] at hr
            refine ⟨fun v r3 h => ?_, fun _ h => absurd h (by simp)⟩
            have h7 : r2 = r3 := (Prod.mk.inj (Except.ok.inj h)).2
            rw [← h7]
            omega
          · next r2 _ =>
            obtain ⟨hlen, hfuel⟩ := ihM (skipWs r) []
            refine ⟨fun v r3 h => ?_, fun hf => hfuel (by omega)⟩
            have := hlen v r3 h
            omega
        rw [if_neg h6]
        exact runsWell_number hle _ _
    · unfold parseElements
      obtain ⟨hlenV, hfuelV⟩ := ihV cs
      cases hv : parseValue fuel cs with
      | error e =>
        refine ⟨fun _ _ h => absurd h (by simp), fun hf h => ?_⟩
        have h1 : e = .outOfFuel := by simpa using h
        rw [h1] at hv
        exact hfuelV (by omega) hv
      | ok p =>
        obtain ⟨v, r⟩ := p
        have hr := hlenV v r hv
        have hws := skipWs_length_le r
        simp only
        split
        · next r2 hr2 =>
          rw [hr2] at hws
          simp only [List.length_cons] at hws
          obtain ⟨hlen, hfuel⟩ := ihE r2 (acc ++ [v])
          refine ⟨fun w r3 h => ?_, fun hf => hfuel (by omega)⟩
          have := hlen w r3 h
          omega
        · next r2 hr2 =>
          rw [hr2] at hws
          simp only [List.length_cons] at hws
          refine ⟨fun w r3 h => ?_, fun _ h => absurd h (by simp)⟩
          have h7 : r2 = r3 := (Prod.mk.inj (Except.ok.inj h)).2
          rw [← h7]
          omega
        · exact runsWell_error_syntax _ _ _
    · unfold parseMembers
      have hws := skipWs_length_le cs
      split
      · next r hr0 =>
        rw [hr0] at hws
        simp only [List.length_cons] at hws
        cases hs : parseString r with
        | error e =>
          refine ⟨fun _ _ h => absurd h (by simp), fun _ h => ?_⟩
          have h1 : e = .outOfFuel := by simpa using h
          rw [h1] at hs
          exact parseString_fuel r hs
        | ok p =>
          obtain ⟨k, r2⟩ := p
          have hr2 := parseString_length hs
          have hws2 := skipWs_length_le r2
          simp only
          split
          · next r3 hr3 =>
            rw [hr3] at hws2
            simp only [List.length_cons] at hws2
            obtain ⟨hlenV, hfuelV⟩ := ihV r3
            cases hv : parseValue fuel r3 with
            | error e =>
              refine ⟨fun _ _ h => absurd h (by simp), fun hf h => ?_⟩
              have h1 : e = .outOfFuel := by simpa using h
              rw [h1] at hv
              exact hfuelV (by omega) hv
            | ok p =>
              obtain ⟨v, r4⟩ := p
              have hr4 := hlenV v r4 hv
              have hws4 := skipWs_length_le r4
              simp only
              split
              · next r5 hr5 =>
                rw [hr5] at hws4
                simp only [List.length_cons] at hws4
                obtain ⟨hlen, hfuel⟩ := ihM r5 (acc ++ [(k, v)])
                refine ⟨fun w r6 h => ?_, fun hf => hfuel (by omega)⟩
                have := hlen w r6 h
                omega
              · next r5 hr5 =>
                rw [hr5] at hws4
                simp only [List.length_cons] at hws4
                refine ⟨fun w r6 h => ?_, fun _ h => absurd h (by simp)⟩
                have h7 : r5 = r6 := (Prod.mk.inj (Except.ok.inj h)).2
                rw [← h7]
                omega
              · exact runsWell_error_syntax _ _ _
          · exact runsWell_error_syntax _ _ _
      · exact runsWell_error_syntax _ _ _

theorem jsonParse_fuel (s : String) : jsonParse s ≠ .error .outOfFuel := by
  unfold jsonParse
  obtain ⟨_, hfuel⟩ := (parse_runsWell (2 * s.data.length + 2)).1 s.data
  cases hv : parseValue (2 * s.data.length + 2) s.data with
  | error e =>
    intro h
    have h1 : e = .outOfFuel := by simpa using h
    rw [h1] at hv
    exact hfuel (by omega) hv
  | ok p =>
    obtain ⟨v, r⟩ := p
    simp only
    split <;> simp

/-! ## Loading -/

/-- C9, as stated, fails: on persisted text that is not JSON the loader raises the `SyntaxError`
of `JSON.parse`, and on persisted JSON that is not an array it returns that value, not the empty
sequence. -/
theorem getFeeRecords_raises :
    getFeeRecords (some "not json") = .error .syntaxError ∧
    getFeeRecords (some "\x7b\x7d") = .ok (.obj []) ∧
    getFeeRecords (some "null") = .ok .null :=
  ⟨rfl, rfl, rfl⟩

/-- C9, amended. The loader returns the empty sequence when nothing is persisted (the slot is
absent or holds the empty string); on any other content it returns or raises exactly what
`JSON.parse` does on that content, and the only exception it raises is the `SyntaxError` of
`JSON.parse`. -/
theorem getFeeRecords_spec :
    getFeeRecords none = .ok (.arr []) ∧
    getFeeRecords (some "") = .ok (.arr []) ∧
    (∀ s : String, s ≠ "" → getFeeRecords (some s) = jsonParse s) ∧
    (∀ (slot : Option String) (e : JsError), getFeeRecords slot = .error e →
      e = .syntaxError ∧ ∃ s, slot = some s ∧ s ≠ "" ∧ jsonParse s = .error .syntaxError) := by
  have hne : ∀ s : String, s ≠ "" → getFeeRecords (some s) = jsonParse s := by
    intro s hs
    simp only [getFeeRecords, hs, ne_eq, not_false_eq_true, if_true]
  refine ⟨rfl, rfl, hne, ?_⟩
  intro slot e h
  cases slot with
  | none => exact absurd h (by simp [getFeeRecords])
  | some s =>
    by_cases hs : s = ""
    · subst hs
      exact absurd h (by simp [getFeeRecords])
    · rw [hne s hs] at h
      have he : e = .syntaxError := by
        cases e with
        | syntaxError => rfl
        | outOfFuel => exact absurd h (jsonParse_fuel s)
      subst he
      exact ⟨rfl, s, rfl, hs, h⟩

/-- Witness of `getFeeRecords_spec`: a persisted empty array, a persisted one-record array, and
persisted text that is not JSON. -/
theorem getFeeRecords_spec_witness :
    getFeeRecords (some "[]") = jsonParse "[]" ∧ jsonParse "[]" = .ok (.arr []) ∧
    getFeeRecords (some "[\x7b\"name\":\"Asha\"\x7d]") =
      jsonParse "[\x7b\"name\":\"Asha\"\x7d]" ∧
    jsonParse "[\x7b\"name\":\"Asha\"\x7d]" = .ok (.arr [.obj [("name", .str "Asha")]]) ∧
    (JsError.syntaxError = JsError.syntaxError ∧
      ∃ s, some "[1," = some s ∧ s ≠ "" ∧ jsonParse s = .error .syntaxError) :=
  ⟨getFeeRecords_spec.2.2.1 "[]" (by decide), rfl,
    getFeeRecords_spec.2.2.1 "[\x7b\"name\":\"Asha\"\x7d]" (by decide), rfl,
    getFeeRecords_spec.2.2.2 (some "[1,") .syntaxError rfl⟩

end FeeTracker
